import Mathlib

/-!
The dependency-aggregating endpoint of claudioed/micro.

A shallow embedding of `src/app.go` and `src/main.go`.

* Go pointers that may be nil are `Option`; a slice whose nil-ness is observable
  (`AppResponse.Dependencies`) is an `Option (List _)`.
* Everything outside the repository (environment, file system, `encoding/json`,
  `net/http`, `net/textproto`) is gathered in `World` and quantified over.
* Global variables (`conf`, `once`) and the effects of a run (files read, requests
  handed to `client.Do`) are threaded through an explicit `State`.
* A nil-pointer dereference (a Go panic) is the result `none`.
* Log output is not modelled.
-/

set_option autoImplicit false

namespace Micro

/-! ## Data model -/

/-- A non-nil Go `error`, identified by its message; the interface value `nil` is
`none : Option GoError`. -/
structure GoError where
  msg : String
deriving DecidableEq, Repr

/-- The result of `errors.New`. -/
def errorsNew (text : String) : GoError := ⟨text⟩

/-- A `[]byte`, kept as text. -/
abbrev Bytes := String

/-- The `App` struct of `app.go`. -/
structure App where
  Name : String
  Url : String
deriving DecidableEq, Repr

/-- The `AppSettings` struct of `app.go`; only `len(Apps)` and the elements are ever
observed, so the slice is a list. -/
structure AppSettings where
  Name : String
  Version : String
  Apps : List App
deriving DecidableEq, Repr

/-- The value `&AppSettings{}`. -/
def AppSettings.zero : AppSettings := ⟨"", "", []⟩

/-- The `AppResponse` struct of `app.go`: `Dependencies []*AppResponse` is `none` for a
nil slice, and each element is a pointer that may itself be nil. -/
inductive AppResponse where
  | mk (Name : String) (Version : String) (Status : String)
      (Dependencies : Option (List (Option AppResponse)))

namespace AppResponse

/-- Field `Name`. -/
def Name : AppResponse → String
  | mk n _ _ _ => n

/-- Field `Version`. -/
def Version : AppResponse → String
  | mk _ v _ _ => v

/-- Field `Status`. -/
def Status : AppResponse → String
  | mk _ _ s _ => s

/-- Field `Dependencies`. -/
def Dependencies : AppResponse → Option (List (Option AppResponse))
  | mk _ _ _ d => d

/-- The value `&AppResponse{}`. -/
def zero : AppResponse := mk "" "" "" none

/-- The method `func (a *AppResponse) status(status string)`. -/
def status (a : AppResponse) (status : String) : AppResponse :=
  mk a.Name a.Version status a.Dependencies

end AppResponse

/-- The constructor `NewSingleAppResponse` of `app.go`. -/
def NewSingleAppResponse (name version status : String) : AppResponse :=
  AppResponse.mk name version status none

/-- The constructor `NewAppResponse` of `app.go`. -/
def NewAppResponse (name version status : String)
    (dep : Option (List (Option AppResponse))) : AppResponse :=
  AppResponse.mk name version status dep

/-- The `Result` struct of `main.go`. -/
structure Result where
  Response : Option AppResponse
  Status : Int
  Error : Option GoError

/-- The method `func (r *Result) hasError() bool`. -/
def Result.hasError (r : Result) : Bool := r.Error.isSome

/-- The function `containsError` of `main.go`: a loop that returns at the first hit. -/
def containsError : List Result → Bool
  | [] => false
  | data :: rest => if data.hasError then true else containsError rest

/-- The function `transform` of `main.go`: a loop appending to a slice made with
length 0. -/
def transform (res : List Result) : List (Option AppResponse) :=
  res.foldl (fun data app => data ++ [app.Response]) []

/-- The function `is2xx` of `main.go`. -/
def is2xx (status : Int) : Bool := decide (status ≥ 200) && decide (status < 300)

/-! ## HTTP messages -/

/-- A Go `http.Header`: the values stored under each map key, `none` when the key is
absent. -/
def Header : Type := String → Option (List String)

namespace Header

/-- The map of a request built by `http.NewRequest`: no key at all. -/
def empty : Header := fun _ => none

/-- The method `Header.Get` of `net/http`: the first value stored under the canonical form
of `key`, and `""` when there is none. -/
def Get (canon : String → String) (h : Header) (key : String) : String :=
  match h (canon key) with
  | some (v :: _) => v
  | _ => ""

/-- The method `Header.Set` of `net/http`: the canonical form of `key` is bound to the
single value `value`. -/
def Set (canon : String → String) (h : Header) (key value : String) : Header :=
  fun k => if k = canon key then some [value] else h k

end Header

/-- The part of an `http.Request` the program touches. -/
structure Request where
  Method : String
  URL : String
  Header : Header

/-- The part of an `http.Response` the program touches; `Body` is what `ioutil.ReadAll`
yields on the response body. -/
structure Response where
  Status : String
  StatusCode : Int
  Body : Except GoError Bytes

/-- The part of an `echo.Context` the program touches: the inbound request. -/
structure Context where
  Request : Request

/-- What `c.JSON(code, body)` hands to the framework. -/
structure Answer where
  code : Int
  body : AppResponse

/-- The constant `http.StatusCreated`. -/
def StatusCreated : Int := 201

/-- The constant `http.StatusServiceUnavailable`. -/
def StatusServiceUnavailable : Int := 503

/-! ## The world outside the repository -/

/-- Everything the program obtains from outside its own source. -/
structure World where
  /-- The function `os.Getenv`. -/
  Getenv : String → String
  /-- The function `ioutil.ReadFile`: the bytes and the error it returns for a path. -/
  ReadFile : String → Bytes × Option GoError
  /-- The first pass of `json.Unmarshal`: the syntax error of the input, if any. -/
  checkValid : Bytes → Option GoError
  /-- The second pass of `json.Unmarshal` into an `*AppSettings`: the target after
  decoding and the error reported. -/
  decodeAppSettings : Bytes → AppSettings → AppSettings × Option GoError
  /-- The second pass of `json.Unmarshal` into an `*AppResponse`. -/
  decodeAppResponse : Bytes → AppResponse → AppResponse × Option GoError
  /-- The function `textproto.CanonicalMIMEHeaderKey`. -/
  canonicalKey : String → String
  /-- Whether `url.Parse`, and with it `http.NewRequest`, accepts the URL. -/
  parseURL : String → Bool
  /-- The method `client.Do`: the outcome of a request, which may depend on the requests
  sent before it. -/
  Do : List Request → Request → Except GoError Response

/-- The function `json.Unmarshal` of `encoding/json`: the input is validated as a whole
first, and a syntax error is returned before anything is stored in the target; only valid
input is decoded into the target. -/
def jsonUnmarshal {α : Type} (w : World) (decode : Bytes → α → α × Option GoError)
    (data : Bytes) (v : α) : α × Option GoError :=
  match w.checkValid data with
  | some err => (v, some err)
  | none => decode data v

/-- The function `http.NewRequest` with a nil body: `none` is the nil request returned
together with an error when the URL does not parse. -/
def NewRequest (w : World) (method url : String) : Option Request :=
  if w.parseURL url then some ⟨method, url, Header.empty⟩ else none

/-! ## Program state -/

/-- The package variables `conf` and `once` of `app.go`, with the effects of the run so
far: the paths handed to `ioutil.ReadFile` and the requests handed to `client.Do`. -/
structure State where
  conf : Option AppSettings
  onceDone : Bool
  reads : List String
  calls : List Request

/-- The state of a process that has just started. -/
def State.init : State := ⟨none, false, [], []⟩

/-! ## `app.go` -/

/-- The function `readAppConfiguration` of `app.go`; the error of `ioutil.ReadFile` is
discarded and the error of `json.Unmarshal` is only logged. -/
def readAppConfiguration (w : World) (reads : List String) : AppSettings × List String :=
  let path := w.Getenv "APP_CONFIG_PATH"
  let file := (w.ReadFile path).1
  let appSettings := AppSettings.zero
  let decoded := jsonUnmarshal w w.decodeAppSettings file appSettings
  (decoded.1, reads ++ [path])

/-- The function `GetAppSettings` of `app.go`: `once.Do` runs its argument only while
`once` has not fired. -/
def GetAppSettings (w : World) (st : State) : Option AppSettings × State :=
  let st1 : State :=
    if st.onceDone then st
    else
      let r := readAppConfiguration w st.reads
      { st with conf := some r.1, onceDone := true, reads := r.2 }
  (st1.conf, st1)

/-! ## `main.go` -/

/-- The allow-list `incomingHeaders` of `forwardHeaders`. -/
def incomingHeaders : List String :=
  ["Authorization", "app-version", "x-request-id", "x-b3-traceid", "x-b3-spanid",
   "x-b3-parentspanid", "x-b3-sampled", "x-b3-flags", "x-ot-span-context"]

/-- One iteration of the loop of `forwardHeaders`. -/
def forwardHeader (w : World) (ctx : Context) (r : Request) (th : String) : Request :=
  let h := Header.Get w.canonicalKey ctx.Request.Header th
  if h ≠ "" then { r with Header := Header.Set w.canonicalKey r.Header th h } else r

/-- The function `forwardHeaders` of `main.go`, on a non-nil outbound request. -/
def forwardHeaders (w : World) (ctx : Context) (r : Request) : Request :=
  incomingHeaders.foldl (forwardHeader w ctx) r

/-- The function `postFor` of `main.go`. The error of `http.NewRequest` is discarded, so
a URL that does not parse leaves `req` nil and the run panics on the first dereference of
it (`r.Header` in `forwardHeaders`, or `req.URL` inside `client.Do`): that is `none`, with
no request sent. -/
def postFor (w : World) (ctx : Context) (app : App) (calls : List Request) :
    Option (AppResponse × Int × Option GoError) × List Request :=
  match NewRequest w "POST" app.Url with
  | none => (none, calls)
  | some req0 =>
    let ar := AppResponse.mk app.Name "unknown" "" none
    let req := forwardHeaders w ctx req0
    match w.Do calls req with
    | .error err => (some (ar.status "0", 0, some err), calls ++ [req])
    | .ok res =>
      let status := res.StatusCode
      if !is2xx status then
        (some (ar, status, some (errorsNew res.Status)), calls ++ [req])
      else
        match res.Body with
        | .error readErr => (some (ar.status "0", status, some readErr), calls ++ [req])
        | .ok body =>
          match jsonUnmarshal w w.decodeAppResponse body AppResponse.zero with
          | (_, some jsonErr) => (some (ar.status "0", status, some jsonErr), calls ++ [req])
          | (appRes, none) => (some (appRes, status, none), calls ++ [req])

/-- The loop of `call`: one `postFor` per dependency, in order, each result appended. -/
def callLoop (w : World) (ctx : Context) :
    List App → List Result → List Request → Option (List Result) × List Request
  | [], results, calls => (some results, calls)
  | app :: rest, results, calls =>
    match postFor w ctx app calls with
    | (none, calls1) => (none, calls1)
    | (some (res, status, err), calls1) =>
      callLoop w ctx rest (results ++ [⟨some res, status, err⟩]) calls1

/-- The function `call` of `main.go`. -/
def call (w : World) (settings : AppSettings) (ctx : Context) (calls : List Request) :
    Option (List Result) × List Request :=
  callLoop w ctx settings.Apps [] calls

/-- The handler `Receive` of `main.go`: the answer passed to `c.JSON` (`none` when the run
panics) and the state it leaves. -/
def Receive (w : World) (ctx : Context) (st : State) : Option Answer × State :=
  match GetAppSettings w st with
  | (none, st1) => (none, st1)
  | (some appSettings, st1) =>
    if appSettings.Apps.length > 0 then
      match call w appSettings ctx st1.calls with
      | (none, calls) => (none, { st1 with calls := calls })
      | (some result, calls) =>
        if containsError result then
          (some ⟨StatusServiceUnavailable,
            NewAppResponse appSettings.Name appSettings.Version "503" (some (transform result))⟩,
           { st1 with calls := calls })
        else
          (some ⟨StatusCreated,
            NewAppResponse appSettings.Name appSettings.Version "201" (some (transform result))⟩,
           { st1 with calls := calls })
    else
      (some ⟨StatusCreated, NewSingleAppResponse appSettings.Name appSettings.Version "201"⟩, st1)

/-! ## Notions used to state the properties -/

/-- The requests already handed to `client.Do` when `call` reaches the dependency at
position `i`: those the loop leaves after the dependencies before it. -/
def callsBefore (w : World) (ctx : Context) (apps : List App) (calls : List Request)
    (i : Nat) : List Request :=
  (callLoop w ctx (apps.take i) [] calls).2

/-- The first value stored under a map key, `""` when there is none. -/
def firstValue : Option (List String) → String
  | some (v :: _) => v
  | _ => ""

/-- Successive calls of `GetAppSettings` in one process, the world of each call given in
turn: the values returned and the final state. -/
def getAppSettingsRun : List World → State → List (Option AppSettings) × State
  | [], st => ([], st)
  | w :: ws, st =>
    let r := GetAppSettings w st
    let rs := getAppSettingsRun ws r.2
    (r.1 :: rs.1, rs.2)

/-! ## Concrete worlds -/

/-- The bytes accepted as header field name by `net/textproto`. -/
def validHeaderFieldByte (c : Char) : Bool :=
  c.isAlphanum || "!#$%&*+-.^_|~".toList.contains c || c.toNat == 39 || c.toNat == 96

/-- The loop of `textproto.CanonicalMIMEHeaderKey`: upper case at the start and after
each hyphen, lower case elsewhere. -/
def canonLoop : Bool → List Char → List Char
  | _, [] => []
  | upper, c :: cs =>
    let c1 := if upper && c.isLower then c.toUpper
              else if !upper && c.isUpper then c.toLower else c
    c1 :: canonLoop (c1 == '-') cs

/-- The function `textproto.CanonicalMIMEHeaderKey`, for the concrete worlds below: a key
with a byte that is not valid in a field name is returned unchanged. -/
def canonicalMIMEHeaderKey (s : String) : String :=
  if s.toList.all validHeaderFieldByte then String.mk (canonLoop true s.toList) else s

/-- A configuration with two dependencies. -/
def demoSettings : AppSettings :=
  ⟨"gateway", "1.0", [⟨"users", "http://users:9999/api/data"⟩,
    ⟨"orders", "http://orders:9999/api/data"⟩]⟩

/-- The node the `users` service of the concrete worlds reports. -/
def demoNode : AppResponse := AppResponse.mk "users" "2.3" "201" none

/-- An inbound request with one allow-listed header and one that is not. -/
def demoCtx : Context :=
  ⟨⟨"POST", "/api/data",
    fun k => if k = "X-Request-Id" then some ["r-42"]
      else if k = "Cookie" then some ["session=1"] else none⟩⟩

/-- A world whose configuration file holds `demoSettings`, where `users` answers 200 with
a decodable body and `orders` cannot be reached. -/
def demoWorld : World where
  Getenv := fun _ => "/etc/micro/app.json"
  ReadFile := fun _ => ("settings", none)
  checkValid := fun data => if data = "" then some ⟨"unexpected end of JSON input"⟩ else none
  decodeAppSettings := fun _ _ => (demoSettings, none)
  decodeAppResponse := fun _ _ => (demoNode, none)
  canonicalKey := canonicalMIMEHeaderKey
  parseURL := fun url => !(url.toList.head? == some ':')
  Do := fun _ req =>
    if req.URL = "http://users:9999/api/data" then .ok ⟨"200 OK", 200, .ok "users"⟩
    else .error ⟨"dial tcp: connection refused"⟩

/-- The world `demoWorld` with every dependency answering 200 with a decodable body. -/
def healthyWorld : World :=
  { demoWorld with Do := fun _ _ => .ok ⟨"200 OK", 200, .ok "users"⟩ }

/-- The world `demoWorld` with every dependency answering 500. -/
def failingWorld : World :=
  { demoWorld with Do := fun _ _ => .ok ⟨"500 Internal Server Error", 500, .ok "oops"⟩ }

/-- The world `demoWorld` with every dependency answering 200 with an empty body, which
is not valid JSON. -/
def garbledWorld : World :=
  { demoWorld with Do := fun _ _ => .ok ⟨"200 OK", 200, .ok ""⟩ }

/-- The world `demoWorld` with a configuration file that lists no dependency. -/
def leafWorld : World :=
  { demoWorld with decodeAppSettings := fun _ _ => (⟨"leaf", "0.1", []⟩, none) }

/-- The text of a configuration file that is valid JSON but gives the number 1 where the
string `version` is expected:
`{"name":"gateway","version":1,"apps":[{"name":"users","url":"http://users:9999/api/data"}]}`. -/
def mistypedFile : Bytes :=
  "\x7b\"name\":\"gateway\",\"version\":1,\"apps\":[\x7b\"name\":\"users\",\"url\":\"http://users:9999/api/data\"\x7d]\x7d"

/-- A world whose configuration file is `mistypedFile`: `json.Unmarshal` skips the field
it cannot store, decodes the others, and reports the type error at the end. -/
def mistypedWorld : World :=
  { demoWorld with
    ReadFile := fun _ => (mistypedFile, none)
    decodeAppSettings := fun data v =>
      if data = mistypedFile then
        ({ v with Name := "gateway", Apps := [⟨"users", "http://users:9999/api/data"⟩] },
          some ⟨"json: cannot unmarshal number into Go struct field AppSettings.version of type string"⟩)
      else (v, none) }

/-- A world whose configuration file cannot be opened: `ioutil.ReadFile` returns no bytes
and an error. -/
def unreadableWorld : World :=
  { demoWorld with
    ReadFile := fun path => ("", some ⟨"open " ++ path ++ ": no such file or directory"⟩) }

/-- A configuration whose second dependency has a URL without a scheme, which `url.Parse`
rejects. -/
def abortSettings : AppSettings :=
  ⟨"gateway", "1.0", [⟨"orders", "http://orders:9999/api/data"⟩, ⟨"bad", ":bad"⟩]⟩

/-- The world `demoWorld` with a configuration file that holds `abortSettings`. -/
def abortWorld : World :=
  { demoWorld with decodeAppSettings := fun _ _ => (abortSettings, none) }

/-- An inbound request that repeats two allow-listed headers: `x-b3-spanid` with an empty
first value, `x-b3-traceid` with two values. -/
def multiValueCtx : Context :=
  ⟨⟨"POST", "/api/data",
    fun k => if k = "X-B3-Spanid" then some ["", "s2"]
      else if k = "X-B3-Traceid" then some ["t1", "t2"] else none⟩⟩

/-! ## Lemmas on the aggregation loops -/

theorem transform_foldl (res : List Result) (acc : List (Option AppResponse)) :
    res.foldl (fun data app => data ++ [app.Response]) acc
      = acc ++ res.map (fun r => r.Response) := by
  induction res generalizing acc with
  | nil => simp
  | cons r rest ih => simp [ih]

theorem transform_eq_map (res : List Result) :
    transform res = res.map (fun r => r.Response) := by
  simp [transform, transform_foldl]

theorem containsError_eq_any (res : List Result) :
    containsError res = res.any (fun r => r.Error.isSome) := by
  induction res with
  | nil => rfl
  | cons r rest ih =>
    cases h : r.Error <;> simp [containsError, Result.hasError, h, ih]

theorem containsError_iff (res : List Result) :
    containsError res = true ↔ ∃ r ∈ res, r.Error ≠ none := by
  rw [containsError_eq_any]
  simp [List.any_eq_true, Option.isSome_iff_ne_none]

/-! ## Lemmas on the fan-out loop -/

theorem callLoop_calls_acc (w : World) (ctx : Context) (apps : List App)
    (acc acc' : List Result) (calls : List Request) :
    (callLoop w ctx apps acc calls).2 = (callLoop w ctx apps acc' calls).2 := by
  induction apps generalizing acc acc' calls with
  | nil => rfl
  | cons app rest ih =>
    unfold callLoop
    rcases hp : postFor w ctx app calls with ⟨_ | ⟨res, status, err⟩, calls1⟩
    · rfl
    · exact ih _ _ _

theorem callsBefore_zero (w : World) (ctx : Context) (apps : List App)
    (calls : List Request) : callsBefore w ctx apps calls 0 = calls := by
  simp [callsBefore, callLoop]

theorem callsBefore_succ (w : World) (ctx : Context) (app : App) (rest : List App)
    (calls : List Request) (i : Nat) (o : AppResponse × Int × Option GoError)
    (h : (postFor w ctx app calls).1 = some o) :
    callsBefore w ctx (app :: rest) calls (i + 1)
      = callsBefore w ctx rest (postFor w ctx app calls).2 i := by
  unfold callsBefore
  rw [List.take_succ_cons]
  conv_lhs => unfold callLoop
  rcases hp : postFor w ctx app calls with ⟨_ | ⟨res, status, err⟩, calls1⟩
  · rw [hp] at h
    cases h
  · exact callLoop_calls_acc w ctx _ _ _ _

theorem callLoop_cons_some (w : World) (ctx : Context) (app : App) (rest : List App)
    (acc : List Result) (calls : List Request) (o : AppResponse × Int × Option GoError)
    (h : (postFor w ctx app calls).1 = some o) :
    callLoop w ctx (app :: rest) acc calls
      = callLoop w ctx rest (acc ++ [⟨some o.1, o.2.1, o.2.2⟩]) (postFor w ctx app calls).2 := by
  conv_lhs => unfold callLoop
  rcases hp : postFor w ctx app calls with ⟨_ | ⟨res, status, err⟩, calls1⟩
  · rw [hp] at h
    cases h
  · rw [hp] at h
    cases h
    rfl

/-- When every call of `postFor` returns, the loop of `call` returns one `Result` per
dependency, in order, each made of what the call at that position returned. -/
theorem callLoop_of_outcomes (w : World) (ctx : Context) (apps : List App)
    (acc : List Result) (calls : List Request)
    (outs : List (AppResponse × Int × Option GoError))
    (hlen : outs.length = apps.length)
    (houts : ∀ i app o, apps[i]? = some app → outs[i]? = some o →
      (postFor w ctx app (callsBefore w ctx apps calls i)).1 = some o) :
    (callLoop w ctx apps acc calls).1
      = some (acc ++ outs.map (fun o => (⟨some o.1, o.2.1, o.2.2⟩ : Result))) := by
  induction apps generalizing acc calls outs with
  | nil =>
    cases outs with
    | nil => simp [callLoop]
    | cons o os => simp at hlen
  | cons app rest ih =>
    cases outs with
    | nil => simp at hlen
    | cons o os =>
      have h0 : (postFor w ctx app calls).1 = some o := by
        have := houts 0 app o (by simp) (by simp)
        rwa [callsBefore_zero] at this
      rw [callLoop_cons_some w ctx app rest acc calls o h0]
      rw [ih _ _ os (by simpa using hlen)]
      · simp
      · intro i app' o' ha ho
        have := houts (i + 1) app' o' (by simpa using ha) (by simpa using ho)
        rwa [callsBefore_succ w ctx app rest calls i o h0] at this

/-- When every call of `postFor` returns, there is a list of the values returned, one
per dependency. -/
theorem callLoop_outcomes_exist (w : World) (ctx : Context) (apps : List App)
    (calls : List Request)
    (hret : ∀ i app, apps[i]? = some app →
      ∃ o, (postFor w ctx app (callsBefore w ctx apps calls i)).1 = some o) :
    ∃ outs : List (AppResponse × Int × Option GoError), outs.length = apps.length
      ∧ ∀ i app o, apps[i]? = some app → outs[i]? = some o →
          (postFor w ctx app (callsBefore w ctx apps calls i)).1 = some o := by
  induction apps generalizing calls with
  | nil => exact ⟨[], rfl, by simp⟩
  | cons app rest ih =>
    obtain ⟨o, h0⟩ := hret 0 app (by simp)
    rw [callsBefore_zero] at h0
    obtain ⟨os, hl, hos⟩ := ih (postFor w ctx app calls).2 (by
      intro i app' ha
      obtain ⟨o', h'⟩ := hret (i + 1) app' (by simpa using ha)
      rw [callsBefore_succ w ctx app rest calls i o h0] at h'
      exact ⟨o', h'⟩)
    refine ⟨o :: os, by simp [hl], ?_⟩
    intro i app' o' ha ho
    cases i with
    | zero =>
      simp at ha ho
      subst ha ho
      rw [callsBefore_zero]
      exact h0
    | succ j =>
      rw [callsBefore_succ w ctx app rest calls j o h0]
      exact hos j app' o' (by simpa using ha) (by simpa using ho)

theorem GetAppSettings_calls (w : World) (st : State) :
    (GetAppSettings w st).2.calls = st.calls := by
  unfold GetAppSettings
  by_cases h : st.onceDone = true <;> simp [h]

/-- What `Receive` answers once `call` has returned its results. -/
theorem Receive_of_call (w : World) (ctx : Context) (st : State) (appSettings : AppSettings)
    (results : List Result)
    (hconf : (GetAppSettings w st).1 = some appSettings)
    (hN : 1 ≤ appSettings.Apps.length)
    (hcall : (callLoop w ctx appSettings.Apps [] st.calls).1 = some results) :
    (Receive w ctx st).1
      = some (if containsError results then
          ⟨503, AppResponse.mk appSettings.Name appSettings.Version "503"
            (some (results.map (fun r => r.Response)))⟩
        else
          ⟨201, AppResponse.mk appSettings.Name appSettings.Version "201"
            (some (results.map (fun r => r.Response)))⟩) := by
  unfold Receive
  rcases hg : GetAppSettings w st with ⟨conf, st1⟩
  have hc : st1.calls = st.calls := by
    have := GetAppSettings_calls w st
    rw [hg] at this
    exact this
  rw [hg] at hconf
  simp only at hconf
  subst hconf
  have hpos : appSettings.Apps.length > 0 := hN
  simp only [hpos, if_true, call, hc]
  rcases hl : callLoop w ctx appSettings.Apps [] st.calls with ⟨r, calls⟩
  rw [hl] at hcall
  simp only at hcall
  subst hcall
  by_cases he : containsError results = true
  · simp [he, transform_eq_map, NewAppResponse, StatusServiceUnavailable]
  · simp [he, transform_eq_map, NewAppResponse, StatusCreated]

theorem postFor_decoded (w : World) (ctx : Context) (app : App) (calls : List Request)
    (res : Response) (body : Bytes) (node : AppResponse)
    (hurl : w.parseURL app.Url = true)
    (hdo : w.Do calls (forwardHeaders w ctx ⟨"POST", app.Url, Header.empty⟩) = .ok res)
    (hcode : 200 ≤ res.StatusCode ∧ res.StatusCode ≤ 299)
    (hb : res.Body = .ok body)
    (hj : jsonUnmarshal w w.decodeAppResponse body AppResponse.zero = (node, none)) :
    (postFor w ctx app calls).1 = some (node, res.StatusCode, none) := by
  have h2 : is2xx res.StatusCode = true := by
    simp only [is2xx, Bool.and_eq_true, decide_eq_true_eq]
    exact ⟨hcode.1, by omega⟩
  simp [postFor, NewRequest, hurl, hdo, h2, hb, hj]

/-! ## Lemmas on the configuration provider -/

theorem GetAppSettings_done (w : World) (st : State) (h : st.onceDone = true) :
    GetAppSettings w st = (st.conf, st) := by
  simp [GetAppSettings, h]

theorem getAppSettingsRun_done (ws : List World) (st : State) (h : st.onceDone = true) :
    getAppSettingsRun ws st = (List.replicate ws.length st.conf, st) := by
  induction ws with
  | nil => rfl
  | cons w ws ih =>
    simp only [getAppSettingsRun, GetAppSettings_done w st h, ih, List.length_cons,
      List.replicate_succ]

theorem GetAppSettings_fresh (w : World) (st : State) (h : st.onceDone = false) :
    GetAppSettings w st
      = (some (readAppConfiguration w st.reads).1,
         { st with conf := some (readAppConfiguration w st.reads).1, onceDone := true,
                   reads := (readAppConfiguration w st.reads).2 }) := by
  simp [GetAppSettings, h]

theorem readAppConfiguration_reads (w : World) (reads : List String) :
    (readAppConfiguration w reads).2 = reads ++ [w.Getenv "APP_CONFIG_PATH"] := rfl

theorem readAppConfiguration_settings (w : World) (reads reads' : List String) :
    (readAppConfiguration w reads).1 = (readAppConfiguration w reads').1 := rfl

/-- A dependency whose URL `http.NewRequest` rejects: `postFor` does not return, and no
request is sent. -/
theorem postFor_nil_request (w : World) (ctx : Context) (app : App) (calls : List Request)
    (hurl : w.parseURL app.Url = false) :
    postFor w ctx app calls = (none, calls) := by
  simp [postFor, NewRequest, hurl]

/-! ## Lemmas on header forwarding -/

theorem Header.Get_eq_firstValue (canon : String → String) (h : Header) (key : String) :
    Header.Get canon h key = firstValue (h (canon key)) := by
  unfold Header.Get firstValue
  rcases h (canon key) with _ | (_ | ⟨v, vs⟩) <;> rfl

theorem forwardHeader_Header (w : World) (ctx : Context) (r : Request) (th k : String) :
    (forwardHeader w ctx r th).Header k
      = if w.canonicalKey th = k ∧ firstValue (ctx.Request.Header k) ≠ ""
        then some [firstValue (ctx.Request.Header k)] else r.Header k := by
  unfold forwardHeader
  rw [Header.Get_eq_firstValue]
  by_cases hk : w.canonicalKey th = k
  · subst hk
    by_cases hv : firstValue (ctx.Request.Header (w.canonicalKey th)) = ""
    · simp [hv]
    · simp [hv, Header.Set]
  · have hk' : ¬ k = w.canonicalKey th := fun e => hk e.symm
    by_cases hv : firstValue (ctx.Request.Header (w.canonicalKey th)) = ""
    · simp [hv, hk]
    · simp [hv, hk, hk', Header.Set]

theorem foldl_forwardHeader_Header (w : World) (ctx : Context) (names : List String)
    (r : Request) (k : String) :
    (names.foldl (forwardHeader w ctx) r).Header k
      = if (∃ th ∈ names, w.canonicalKey th = k) ∧ firstValue (ctx.Request.Header k) ≠ ""
        then some [firstValue (ctx.Request.Header k)] else r.Header k := by
  induction names generalizing r with
  | nil => simp
  | cons th rest ih =>
    rw [List.foldl_cons, ih, forwardHeader_Header]
    by_cases hv : firstValue (ctx.Request.Header k) = ""
    · simp [hv]
    · by_cases h1 : ∃ th' ∈ rest, w.canonicalKey th' = k
      · have h2 : ∃ th' ∈ th :: rest, w.canonicalKey th' = k := by
          obtain ⟨t, ht, e⟩ := h1
          exact ⟨t, List.mem_cons_of_mem _ ht, e⟩
        simp [hv, h1, h2]
      · by_cases h3 : w.canonicalKey th = k
        · have h2 : ∃ th' ∈ th :: rest, w.canonicalKey th' = k :=
            ⟨th, List.mem_cons_self _ _, h3⟩
          simp only [hv, h1, h2, h3, not_false_eq_true, and_self, if_true, false_and,
            if_false, true_and]
        · have h2 : ¬ ∃ th' ∈ th :: rest, w.canonicalKey th' = k := by
            rintro ⟨t, ht, e⟩
            rcases List.mem_cons.1 ht with rfl | ht
            · exact h3 e
            · exact h1 ⟨t, ht, e⟩
          simp only [hv, h1, h2, h3, not_false_eq_true, false_and, if_false]

theorem forwardHeader_Method_URL (w : World) (ctx : Context) (r : Request) (th : String) :
    (forwardHeader w ctx r th).Method = r.Method ∧ (forwardHeader w ctx r th).URL = r.URL := by
  unfold forwardHeader
  by_cases hv : Header.Get w.canonicalKey ctx.Request.Header th = "" <;> simp [hv]

theorem foldl_forwardHeader_Method_URL (w : World) (ctx : Context) (names : List String)
    (r : Request) :
    (names.foldl (forwardHeader w ctx) r).Method = r.Method
      ∧ (names.foldl (forwardHeader w ctx) r).URL = r.URL := by
  induction names generalizing r with
  | nil => simp
  | cons th rest ih =>
    rw [List.foldl_cons]
    exact ⟨(ih _).1.trans (forwardHeader_Method_URL w ctx r th).1,
      (ih _).2.trans (forwardHeader_Method_URL w ctx r th).2⟩

/-! ## Claims -/

/-- C3: `containsError` returns true exactly when some `Result` of the list has a non-nil
`Error`; it is false on the empty list, and two lists with the same `Error` fields get the
same answer whatever their `Status` and `Response` fields are. -/
theorem containsError_spec :
    (∀ res : List Result, containsError res = true ↔ ∃ r ∈ res, r.Error ≠ none)
    ∧ containsError [] = false
    ∧ (∀ res res' : List Result,
        res.map (fun r => r.Error) = res'.map (fun r => r.Error) →
        containsError res = containsError res') := by
  refine ⟨containsError_iff, rfl, ?_⟩
  intro res res' h
  have e : ∀ l : List Result,
      l.any (fun r => r.Error.isSome) = (l.map (fun r => r.Error)).any Option.isSome := by
    intro l
    induction l with
    | nil => rfl
    | cons r rest ih => simp [ih]
  rw [containsError_eq_any, containsError_eq_any, e, e, h]

/-- C3, at two concrete lists: an error in the second place is found, and a list of
error-free results with failure-looking `Status` values has none. -/
theorem containsError_spec_witness :
    containsError [⟨some demoNode, 200, none⟩, ⟨none, 0, some ⟨"refused"⟩⟩] = true
    ∧ containsError [⟨none, 500, none⟩, ⟨some demoNode, 0, none⟩]
        = containsError [⟨some demoNode, 201, none⟩, ⟨none, 200, none⟩] :=
  ⟨(containsError_spec.1 _).2 ⟨⟨none, 0, some ⟨"refused"⟩⟩, by simp, by simp⟩,
   containsError_spec.2.2 _ _ rfl⟩

/-- C5: when the request is built and `client.Do` completes with a status code outside
200..299, `postFor` returns the placeholder node (the dependency's name, version
`"unknown"`, nil `Dependencies`, and `Status` still the empty string), the status code of
the response, and the error made from its status text. -/
theorem postFor_non2xx (w : World) (ctx : Context) (app : App) (calls : List Request)
    (res : Response)
    (hurl : w.parseURL app.Url = true)
    (hdo : w.Do calls (forwardHeaders w ctx ⟨"POST", app.Url, Header.empty⟩) = .ok res)
    (hcode : ¬ (200 ≤ res.StatusCode ∧ res.StatusCode ≤ 299)) :
    postFor w ctx app calls
      = (some (AppResponse.mk app.Name "unknown" "" none, res.StatusCode,
            some ⟨res.Status⟩),
         calls ++ [forwardHeaders w ctx ⟨"POST", app.Url, Header.empty⟩]) := by
  have h2 : is2xx res.StatusCode = false := by
    simp only [is2xx, Bool.and_eq_false_imp, decide_eq_true_eq, decide_eq_false_iff_not]
    intro h1 h3
    exact hcode ⟨h1, by omega⟩
  simp [postFor, NewRequest, hurl, hdo, h2, errorsNew]

/-- C5, in a world where every dependency answers 500. -/
theorem postFor_non2xx_witness :
    postFor failingWorld demoCtx ⟨"orders", "http://orders:9999/api/data"⟩ []
      = (some (AppResponse.mk "orders" "unknown" "" none, 500,
            some ⟨"500 Internal Server Error"⟩),
         [] ++ [forwardHeaders failingWorld demoCtx
            ⟨"POST", "http://orders:9999/api/data", Header.empty⟩]) :=
  postFor_non2xx failingWorld demoCtx ⟨"orders", "http://orders:9999/api/data"⟩ []
    ⟨"500 Internal Server Error", 500, .ok "oops"⟩ (by decide) rfl (by decide)

/-- C6: when the request is built and `client.Do` returns an error, `postFor` returns that
error, the status 0, and the placeholder node with the dependency's name, version
`"unknown"`, `Status` `"0"` and nil `Dependencies`. -/
theorem postFor_transport_failure (w : World) (ctx : Context) (app : App)
    (calls : List Request) (err : GoError)
    (hurl : w.parseURL app.Url = true)
    (hdo : w.Do calls (forwardHeaders w ctx ⟨"POST", app.Url, Header.empty⟩) = .error err) :
    postFor w ctx app calls
      = (some (AppResponse.mk app.Name "unknown" "0" none, 0, some err),
         calls ++ [forwardHeaders w ctx ⟨"POST", app.Url, Header.empty⟩]) := by
  simp [postFor, NewRequest, hurl, hdo, AppResponse.status, AppResponse.Name,
    AppResponse.Version, AppResponse.Dependencies]

/-- C6, for the unreachable `orders` service of `demoWorld`. -/
theorem postFor_transport_failure_witness :
    postFor demoWorld demoCtx ⟨"orders", "http://orders:9999/api/data"⟩ []
      = (some (AppResponse.mk "orders" "unknown" "0" none, 0,
            some ⟨"dial tcp: connection refused"⟩),
         [] ++ [forwardHeaders demoWorld demoCtx
            ⟨"POST", "http://orders:9999/api/data", Header.empty⟩]) :=
  postFor_transport_failure demoWorld demoCtx ⟨"orders", "http://orders:9999/api/data"⟩ []
    ⟨"dial tcp: connection refused"⟩ (by decide) rfl

/-- C7: when the request is built and `client.Do` completes with a status code in
200..299, then (1) if the body is read and `json.Unmarshal` reports no error, `postFor`
returns the decoded node itself, the status code and a nil error; (2) if reading the body
fails, and (3) if `json.Unmarshal` reports an error, `postFor` returns that error, the
status code, and the placeholder node (the dependency's name, version `"unknown"`) with
`Status` set to `"0"`. -/
theorem postFor_2xx (w : World) (ctx : Context) (app : App) (calls : List Request)
    (res : Response)
    (hurl : w.parseURL app.Url = true)
    (hdo : w.Do calls (forwardHeaders w ctx ⟨"POST", app.Url, Header.empty⟩) = .ok res)
    (hcode : 200 ≤ res.StatusCode ∧ res.StatusCode ≤ 299) :
    (∀ body node, res.Body = .ok body →
        jsonUnmarshal w w.decodeAppResponse body AppResponse.zero = (node, none) →
        postFor w ctx app calls
          = (some (node, res.StatusCode, none),
             calls ++ [forwardHeaders w ctx ⟨"POST", app.Url, Header.empty⟩]))
    ∧ (∀ readErr, res.Body = .error readErr →
        postFor w ctx app calls
          = (some (AppResponse.mk app.Name "unknown" "0" none, res.StatusCode, some readErr),
             calls ++ [forwardHeaders w ctx ⟨"POST", app.Url, Header.empty⟩]))
    ∧ (∀ body partialNode jsonErr, res.Body = .ok body →
        jsonUnmarshal w w.decodeAppResponse body AppResponse.zero
          = (partialNode, some jsonErr) →
        postFor w ctx app calls
          = (some (AppResponse.mk app.Name "unknown" "0" none, res.StatusCode, some jsonErr),
             calls ++ [forwardHeaders w ctx ⟨"POST", app.Url, Header.empty⟩])) := by
  have h2 : is2xx res.StatusCode = true := by
    simp only [is2xx, Bool.and_eq_true, decide_eq_true_eq]
    exact ⟨hcode.1, by omega⟩
  refine ⟨?_, ?_, ?_⟩
  · intro body node hb hj
    simp [postFor, NewRequest, hurl, hdo, h2, hb, hj]
  · intro readErr hb
    simp [postFor, NewRequest, hurl, hdo, h2, hb, AppResponse.status, AppResponse.Name,
      AppResponse.Version, AppResponse.Dependencies]
  · intro body partialNode jsonErr hb hj
    simp [postFor, NewRequest, hurl, hdo, h2, hb, hj, AppResponse.status, AppResponse.Name,
      AppResponse.Version, AppResponse.Dependencies]

/-- C7, for the `users` service: in `healthyWorld` its body decodes and the decoded node
is returned; in `garbledWorld` its body is not valid JSON and the placeholder with
`Status` `"0"` is returned with the decoder's error. -/
theorem postFor_2xx_witness :
    postFor healthyWorld demoCtx ⟨"users", "http://users:9999/api/data"⟩ []
      = (some (demoNode, 200, none),
         [] ++ [forwardHeaders healthyWorld demoCtx
            ⟨"POST", "http://users:9999/api/data", Header.empty⟩])
    ∧ postFor garbledWorld demoCtx ⟨"users", "http://users:9999/api/data"⟩ []
      = (some (AppResponse.mk "users" "unknown" "0" none, 200,
            some ⟨"unexpected end of JSON input"⟩),
         [] ++ [forwardHeaders garbledWorld demoCtx
            ⟨"POST", "http://users:9999/api/data", Header.empty⟩]) :=
  ⟨(postFor_2xx healthyWorld demoCtx ⟨"users", "http://users:9999/api/data"⟩ []
      ⟨"200 OK", 200, .ok "users"⟩ (by decide) rfl (by decide)).1 "users" demoNode rfl rfl,
   (postFor_2xx garbledWorld demoCtx ⟨"users", "http://users:9999/api/data"⟩ []
      ⟨"200 OK", 200, .ok ""⟩ (by decide) rfl (by decide)).2.2 "" AppResponse.zero
      ⟨"unexpected end of JSON input"⟩ rfl rfl⟩

/-- C8, refuted as stated: the inbound request `multiValueCtx` holds the non-empty value
`"s2"` for the allow-listed `x-b3-spanid`, after an empty first value, and nothing is
forwarded for it; it holds `"t1"` and `"t2"` for `x-b3-traceid`, and only `"t1"` is
forwarded, so the value sent is not the inbound one. -/
theorem forwardHeaders_first_value_only :
    NewRequest demoWorld "POST" "http://users:9999/api/data"
      = some ⟨"POST", "http://users:9999/api/data", Header.empty⟩
    ∧ "x-b3-spanid" ∈ incomingHeaders
    ∧ multiValueCtx.Request.Header (demoWorld.canonicalKey "x-b3-spanid") = some ["", "s2"]
    ∧ (forwardHeaders demoWorld multiValueCtx
        ⟨"POST", "http://users:9999/api/data", Header.empty⟩).Header
          (demoWorld.canonicalKey "x-b3-spanid") = none
    ∧ "x-b3-traceid" ∈ incomingHeaders
    ∧ multiValueCtx.Request.Header (demoWorld.canonicalKey "x-b3-traceid")
        = some ["t1", "t2"]
    ∧ (forwardHeaders demoWorld multiValueCtx
        ⟨"POST", "http://users:9999/api/data", Header.empty⟩).Header
          (demoWorld.canonicalKey "x-b3-traceid") = some ["t1"] :=
  ⟨rfl, by decide, by decide, by decide, by decide, by decide, by decide⟩

/-- C8, amended: let `req` be a request just built by `http.NewRequest` and `ctx` any
inbound request. After `forwardHeaders`, (1) a header key is present on `req` exactly when
it is the canonical form of one of the nine allow-listed names and the first value the
inbound request holds for that name, the one `Header.Get` returns, is non-empty; (2) the
value sent for such a name is that first value alone; (3) no key is ever bound to an empty
value; (4) read by name with `Header.Get`, the
outbound request answers like the inbound one on the allow-list and `""` elsewhere; (5) the
method and URL are untouched; and (6) `postFor` hands exactly this request to
`client.Do`. -/
theorem forwardHeaders_spec (w : World) (ctx : Context) (method url : String) (req : Request)
    (hreq : NewRequest w method url = some req) :
    (∀ k, (forwardHeaders w ctx req).Header k ≠ none ↔
        ∃ th ∈ incomingHeaders, w.canonicalKey th = k
          ∧ Header.Get w.canonicalKey ctx.Request.Header th ≠ "")
    ∧ (∀ th ∈ incomingHeaders, Header.Get w.canonicalKey ctx.Request.Header th ≠ "" →
        (forwardHeaders w ctx req).Header (w.canonicalKey th)
          = some [Header.Get w.canonicalKey ctx.Request.Header th])
    ∧ (∀ k vs, (forwardHeaders w ctx req).Header k = some vs → ∃ v, vs = [v] ∧ v ≠ "")
    ∧ (∀ name, Header.Get w.canonicalKey (forwardHeaders w ctx req).Header name
        = if ∃ th ∈ incomingHeaders, w.canonicalKey th = w.canonicalKey name
          then Header.Get w.canonicalKey ctx.Request.Header name else "")
    ∧ (forwardHeaders w ctx req).Method = method
    ∧ (forwardHeaders w ctx req).URL = url
    ∧ (∀ (app : App) (calls : List Request), method = "POST" → url = app.Url →
        (postFor w ctx app calls).2 = calls ++ [forwardHeaders w ctx req]) := by
  have hp : w.parseURL url = true := by
    by_contra hc
    simp [NewRequest, hc] at hreq
  have hr : req = ⟨method, url, Header.empty⟩ := by
    simp [NewRequest, hp] at hreq
    exact hreq.symm
  subst hr
  have key : ∀ k, (forwardHeaders w ctx ⟨method, url, Header.empty⟩).Header k
      = if (∃ th ∈ incomingHeaders, w.canonicalKey th = k)
            ∧ firstValue (ctx.Request.Header k) ≠ ""
        then some [firstValue (ctx.Request.Header k)] else none := by
    intro k
    unfold forwardHeaders
    rw [foldl_forwardHeader_Header]
    rfl
  refine ⟨?_, ?_, ?_, ?_, ?_, ?_, ?_⟩
  · intro k
    rw [key]
    constructor
    · intro h
      by_cases hc : (∃ th ∈ incomingHeaders, w.canonicalKey th = k)
          ∧ firstValue (ctx.Request.Header k) ≠ ""
      · obtain ⟨⟨th, hth, e⟩, hv⟩ := hc
        refine ⟨th, hth, e, ?_⟩
        rw [Header.Get_eq_firstValue, e]
        exact hv
      · simp [hc] at h
    · rintro ⟨th, hth, e, hv⟩
      rw [Header.Get_eq_firstValue, e] at hv
      have hc : (∃ th ∈ incomingHeaders, w.canonicalKey th = k)
          ∧ firstValue (ctx.Request.Header k) ≠ "" := ⟨⟨th, hth, e⟩, hv⟩
      simp [hc]
  · intro th hth hv
    rw [key, Header.Get_eq_firstValue]
    rw [Header.Get_eq_firstValue] at hv
    have hc : (∃ th' ∈ incomingHeaders, w.canonicalKey th' = w.canonicalKey th)
        ∧ firstValue (ctx.Request.Header (w.canonicalKey th)) ≠ "" := ⟨⟨th, hth, rfl⟩, hv⟩
    simp [hc]
  · intro k vs h
    rw [key] at h
    by_cases hc : (∃ th ∈ incomingHeaders, w.canonicalKey th = k)
        ∧ firstValue (ctx.Request.Header k) ≠ ""
    · rw [if_pos hc] at h
      exact ⟨_, (Option.some.inj h).symm, hc.2⟩
    · simp [hc] at h
  · intro name
    rw [Header.Get_eq_firstValue, Header.Get_eq_firstValue, key]
    by_cases h1 : ∃ th ∈ incomingHeaders, w.canonicalKey th = w.canonicalKey name
    · by_cases hv : firstValue (ctx.Request.Header (w.canonicalKey name)) = ""
      · rw [if_neg (fun h => h.2 hv), if_pos h1, hv]
        rfl
      · rw [if_pos ⟨h1, hv⟩, if_pos h1]
        rfl
    · rw [if_neg (fun h => h1 h.1), if_neg h1]
      rfl
  · exact (foldl_forwardHeader_Method_URL w ctx incomingHeaders _).1
  · exact (foldl_forwardHeader_Method_URL w ctx incomingHeaders _).2
  · intro app calls hm hu
    subst hm hu
    unfold postFor
    simp only [NewRequest, hp, if_true]
    cases w.Do calls (forwardHeaders w ctx ⟨"POST", app.Url, Header.empty⟩) with
    | error err => rfl
    | ok res =>
      by_cases h2 : is2xx res.StatusCode = true
      · simp only [h2, Bool.not_true, Bool.false_eq_true, if_false]
        cases res.Body with
        | error e => rfl
        | ok body =>
          simp only
          rcases jsonUnmarshal w w.decodeAppResponse body AppResponse.zero with ⟨n, _ | e⟩
            <;> rfl
      · simp [h2]

/-- C8 amended, for the inbound request `demoCtx`, which carries `x-request-id` and a cookie: the
request id is forwarded with its value, the cookie is not, and `Authorization`, absent
inbound, is not sent. -/
theorem forwardHeaders_spec_witness :
    (forwardHeaders demoWorld demoCtx ⟨"POST", "http://users:9999/api/data", Header.empty⟩).Header
        "X-Request-Id" = some ["r-42"]
    ∧ ¬ ((forwardHeaders demoWorld demoCtx
          ⟨"POST", "http://users:9999/api/data", Header.empty⟩).Header "Cookie" ≠ none)
    ∧ Header.Get demoWorld.canonicalKey (forwardHeaders demoWorld demoCtx
          ⟨"POST", "http://users:9999/api/data", Header.empty⟩).Header "Authorization" = "" :=
  ⟨(forwardHeaders_spec demoWorld demoCtx "POST" "http://users:9999/api/data" _ rfl).2.1
      "x-request-id" (by decide) (by decide),
   fun h => absurd
     (((forwardHeaders_spec demoWorld demoCtx "POST" "http://users:9999/api/data" _ rfl).1
        "Cookie").1 h) (by decide),
   ((forwardHeaders_spec demoWorld demoCtx "POST" "http://users:9999/api/data" _
      rfl).2.2.2.1 "Authorization").trans (by decide)⟩

/-- C1, on the code: in `abortWorld` the configuration has two dependencies; the call for
the first, `orders`, returns a non-nil transport error, and the URL of the second is
rejected by `http.NewRequest`, whose error `postFor` discards. `Receive` then gives no
answer at all (the run panics on the nil request) instead of 503 with two nodes, and only
the request for `orders` has been sent. -/
theorem Receive_aborts_on_rejected_url :
    (GetAppSettings abortWorld State.init).1 = some abortSettings
    ∧ abortSettings.Apps.length = 2
    ∧ (postFor abortWorld demoCtx ⟨"orders", "http://orders:9999/api/data"⟩ []).1
        = some (AppResponse.mk "orders" "unknown" "0" none, 0,
            some ⟨"dial tcp: connection refused"⟩)
    ∧ (postFor abortWorld demoCtx ⟨"bad", ":bad"⟩
        (callsBefore abortWorld demoCtx abortSettings.Apps [] 1)).1 = none
    ∧ (Receive abortWorld demoCtx State.init).1 = none
    ∧ (Receive abortWorld demoCtx State.init).2.calls.map (fun r => r.URL)
        = ["http://orders:9999/api/data"] :=
  ⟨rfl, rfl, rfl, rfl, rfl, by decide⟩

/-- The aggregation when every call of `postFor` returns: for any configuration with
N ≥ 1 dependencies and any outcomes `outs`, one per dependency, where `outs[i]` is what the
call for the i-th dependency returns, if at least one carries a non-nil error then
`Receive` answers with code 503 and a node with the configured name and version, status
`"503"`, and N `Dependencies`, the i-th being the node of `outs[i]`. -/
theorem Receive_some_call_fails (w : World) (ctx : Context) (st : State)
    (appSettings : AppSettings) (outs : List (AppResponse × Int × Option GoError))
    (hconf : (GetAppSettings w st).1 = some appSettings)
    (hN : 1 ≤ appSettings.Apps.length)
    (hlen : outs.length = appSettings.Apps.length)
    (houts : ∀ i app o, appSettings.Apps[i]? = some app → outs[i]? = some o →
      (postFor w ctx app (callsBefore w ctx appSettings.Apps st.calls i)).1 = some o)
    (herr : ∃ o ∈ outs, o.2.2 ≠ none) :
    (Receive w ctx st).1
      = some ⟨503, AppResponse.mk appSettings.Name appSettings.Version "503"
          (some (outs.map (fun o => some o.1)))⟩
    ∧ (outs.map (fun o => some o.1)).length = appSettings.Apps.length := by
  have hcall := callLoop_of_outcomes w ctx appSettings.Apps [] st.calls outs hlen houts
  have hce : containsError
      ([] ++ outs.map (fun o => (⟨some o.1, o.2.1, o.2.2⟩ : Result))) = true := by
    rw [containsError_iff]
    obtain ⟨o, ho, he⟩ := herr
    exact ⟨⟨some o.1, o.2.1, o.2.2⟩, by
      rw [List.nil_append]
      exact List.mem_map.2 ⟨o, ho, rfl⟩, he⟩
  refine ⟨?_, by simpa using hlen⟩
  rw [Receive_of_call w ctx st appSettings _ hconf hN hcall, hce]
  simp [List.map_map, Function.comp_def]

/-- In `demoWorld`, `users` answers and `orders` cannot be reached; the answer is 503 and
both nodes are reported, in configuration order. -/
theorem Receive_some_call_fails_witness :
    (Receive demoWorld demoCtx State.init).1
      = some ⟨503, AppResponse.mk "gateway" "1.0" "503"
          (some [some demoNode, some (AppResponse.mk "orders" "unknown" "0" none)])⟩ :=
  (Receive_some_call_fails demoWorld demoCtx State.init demoSettings
    [(demoNode, 200, none),
     (AppResponse.mk "orders" "unknown" "0" none, 0, some ⟨"dial tcp: connection refused"⟩)]
    rfl (by decide) rfl
    (by
      intro i app o ha ho
      match i with
      | 0 =>
        simp [demoSettings] at ha ho
        subst ha ho
        rfl
      | 1 =>
        simp [demoSettings] at ha ho
        subst ha ho
        rfl
      | n + 2 => simp [demoSettings] at ha)
    ⟨_, List.mem_cons_of_mem _ (List.mem_singleton_self _), by simp⟩).1

/-- C2: take any configuration with N ≥ 1 dependencies and any nodes `nodes`, one per
dependency, such that for every i the request for the i-th dependency is built,
`client.Do` completes with a status code in 200..299, the body is read and
`json.Unmarshal` decodes it to `nodes[i]` without error. Then `Receive` answers with code
201 and a node with the configured name and version, status `"201"`, and N
`Dependencies`, the i-th being `nodes[i]`. -/
theorem Receive_all_calls_succeed (w : World) (ctx : Context) (st : State)
    (appSettings : AppSettings) (nodes : List AppResponse)
    (hconf : (GetAppSettings w st).1 = some appSettings)
    (hN : 1 ≤ appSettings.Apps.length)
    (hlen : nodes.length = appSettings.Apps.length)
    (hok : ∀ i app node, appSettings.Apps[i]? = some app → nodes[i]? = some node →
      ∃ res body, w.parseURL app.Url = true
        ∧ w.Do (callsBefore w ctx appSettings.Apps st.calls i)
            (forwardHeaders w ctx ⟨"POST", app.Url, Header.empty⟩) = .ok res
        ∧ (200 ≤ res.StatusCode ∧ res.StatusCode ≤ 299)
        ∧ res.Body = .ok body
        ∧ jsonUnmarshal w w.decodeAppResponse body AppResponse.zero = (node, none)) :
    (Receive w ctx st).1
      = some ⟨201, AppResponse.mk appSettings.Name appSettings.Version "201"
          (some (nodes.map some))⟩
    ∧ (nodes.map some).length = appSettings.Apps.length := by
  have hpost : ∀ (i : Nat) (app : App) (node : AppResponse),
      appSettings.Apps[i]? = some app → nodes[i]? = some node →
      ∃ code, (postFor w ctx app (callsBefore w ctx appSettings.Apps st.calls i)).1
        = some (node, code, none) := by
    intro i app node ha hn
    obtain ⟨res, body, hurl, hdo, hcode, hb, hj⟩ := hok i app node ha hn
    exact ⟨res.StatusCode, postFor_decoded w ctx app _ res body node hurl hdo hcode hb hj⟩
  have hnode : ∀ (i : Nat) (app : App), appSettings.Apps[i]? = some app →
      ∃ node, nodes[i]? = some node := by
    intro i app ha
    have hi : i < nodes.length := by
      rw [hlen]
      exact (List.getElem?_eq_some_iff.1 ha).1
    exact ⟨nodes[i], List.getElem?_eq_getElem hi⟩
  obtain ⟨outs, holen, houts⟩ := callLoop_outcomes_exist w ctx appSettings.Apps st.calls (by
    intro i app ha
    obtain ⟨node, hn⟩ := hnode i app ha
    obtain ⟨code, hc⟩ := hpost i app node ha hn
    exact ⟨_, hc⟩)
  have hshape : ∀ (i : Nat) (o : AppResponse × Int × Option GoError),
      outs[i]? = some o → nodes[i]? = some o.1 ∧ o.2.2 = none := by
    intro i o ho
    have hi : i < appSettings.Apps.length := by
      rw [← holen]
      exact (List.getElem?_eq_some_iff.1 ho).1
    have ha : appSettings.Apps[i]? = some appSettings.Apps[i] := List.getElem?_eq_getElem hi
    obtain ⟨node, hn⟩ := hnode i _ ha
    obtain ⟨code, hc⟩ := hpost i _ node ha hn
    have := houts i _ o ha ho
    rw [hc] at this
    cases this
    exact ⟨hn, rfl⟩
  have hmap : outs.map (fun o => o.1) = nodes := by
    apply List.ext_getElem?
    intro i
    rw [List.getElem?_map]
    rcases ho : outs[i]? with _ | o
    · have : nodes.length ≤ i := by
        rw [hlen, ← holen]
        exact List.getElem?_eq_none_iff.1 ho
      simp [List.getElem?_eq_none_iff.2 this]
    · simp [(hshape i o ho).1]
  have hcall := callLoop_of_outcomes w ctx appSettings.Apps [] st.calls outs holen houts
  have hce : ¬ containsError
      ([] ++ outs.map (fun o => (⟨some o.1, o.2.1, o.2.2⟩ : Result))) = true := by
    rw [containsError_iff]
    rintro ⟨r, hr, he⟩
    simp only [List.nil_append, List.mem_map] at hr
    obtain ⟨o, ho, rfl⟩ := hr
    obtain ⟨i, hi, hio⟩ := List.getElem_of_mem ho
    exact he (hshape i o (by rw [List.getElem?_eq_getElem hi, hio])).2
  refine ⟨?_, by simpa using hlen⟩
  rw [Receive_of_call w ctx st appSettings _ hconf hN hcall, if_neg hce, ← hmap]
  simp [List.map_map, Function.comp_def]

/-- C2, in `healthyWorld`: both dependencies answer 200 with a body that decodes to
`demoNode`. -/
theorem Receive_all_calls_succeed_witness :
    (Receive healthyWorld demoCtx State.init).1
      = some ⟨201, AppResponse.mk "gateway" "1.0" "201" (some [some demoNode, some demoNode])⟩ :=
  (Receive_all_calls_succeed healthyWorld demoCtx State.init demoSettings [demoNode, demoNode]
    rfl (by decide) rfl
    (by
      intro i app node ha hn
      match i with
      | 0 =>
        simp [demoSettings] at ha hn
        subst ha hn
        exact ⟨⟨"200 OK", 200, .ok "users"⟩, "users", by decide, rfl, by decide, rfl, rfl⟩
      | 1 =>
        simp [demoSettings] at ha hn
        subst ha hn
        exact ⟨⟨"200 OK", 200, .ok "users"⟩, "users", by decide, rfl, by decide, rfl, rfl⟩
      | n + 2 => simp [demoSettings] at ha)).1

/-- C4: for any configuration whose dependency list is empty, `Receive` hands no request
to `client.Do` and answers with code 201 and a single node with the configured name and
version, status `"201"` and nil `Dependencies`. -/
theorem Receive_no_dependencies (w : World) (ctx : Context) (st : State)
    (appSettings : AppSettings)
    (hconf : (GetAppSettings w st).1 = some appSettings)
    (hempty : appSettings.Apps = []) :
    (Receive w ctx st).1
      = some ⟨201, AppResponse.mk appSettings.Name appSettings.Version "201" none⟩
    ∧ (Receive w ctx st).2.calls = st.calls := by
  unfold Receive
  rcases hg : GetAppSettings w st with ⟨conf, st1⟩
  have hc : st1.calls = st.calls := by
    have := GetAppSettings_calls w st
    rw [hg] at this
    exact this
  rw [hg] at hconf
  simp only at hconf
  subst hconf
  simp [hempty, hc, NewSingleAppResponse, StatusCreated]

/-- C4, in `leafWorld`, whose configuration lists no dependency. -/
theorem Receive_no_dependencies_witness :
    (Receive leafWorld demoCtx State.init).1
      = some ⟨201, AppResponse.mk "leaf" "0.1" "201" none⟩
    ∧ (Receive leafWorld demoCtx State.init).2.calls = [] :=
  Receive_no_dependencies leafWorld demoCtx State.init ⟨"leaf", "0.1", []⟩ rfl rfl

/-- C9, refuted as stated: the configuration file of `mistypedWorld` is valid JSON with a
number where the string `version` is expected; `json.Unmarshal` reports an error, yet the
settings returned carry the name and the dependency decoded from the file. -/
theorem readAppConfiguration_keeps_decoded_fields :
    (jsonUnmarshal mistypedWorld mistypedWorld.decodeAppSettings
        (mistypedWorld.ReadFile (mistypedWorld.Getenv "APP_CONFIG_PATH")).1
        AppSettings.zero).2 ≠ none
    ∧ (readAppConfiguration mistypedWorld []).1
        = ⟨"gateway", "", [⟨"users", "http://users:9999/api/data"⟩]⟩
    ∧ (readAppConfiguration mistypedWorld []).1.Name ≠ ""
    ∧ (readAppConfiguration mistypedWorld []).1.Apps ≠ [] := by
  decide

/-- C9, amended: whenever the bytes `ioutil.ReadFile` returns for the configured path (its
error is discarded; there are none when the file cannot be opened) are rejected by
`json.Unmarshal` as syntactically invalid, `readAppConfiguration` returns an `AppSettings`
with empty name, empty version and no dependency. It returns in every world. -/
theorem readAppConfiguration_invalid_source (w : World) (reads : List String)
    (hbad : w.checkValid (w.ReadFile (w.Getenv "APP_CONFIG_PATH")).1 ≠ none) :
    (readAppConfiguration w reads).1 = AppSettings.zero
    ∧ (readAppConfiguration w reads).1.Name = ""
    ∧ (readAppConfiguration w reads).1.Version = ""
    ∧ (readAppConfiguration w reads).1.Apps = [] := by
  have h : (readAppConfiguration w reads).1 = AppSettings.zero := by
    rcases hc : w.checkValid (w.ReadFile (w.Getenv "APP_CONFIG_PATH")).1 with _ | err
    · exact absurd hc hbad
    · simp [readAppConfiguration, jsonUnmarshal, hc]
  rw [h]
  exact ⟨rfl, rfl, rfl, rfl⟩

/-- C9 amended, in `unreadableWorld`, where the configuration file cannot be opened. -/
theorem readAppConfiguration_invalid_source_witness :
    (readAppConfiguration unreadableWorld []).1 = AppSettings.zero
    ∧ (readAppConfiguration unreadableWorld []).1.Name = ""
    ∧ (readAppConfiguration unreadableWorld []).1.Version = ""
    ∧ (readAppConfiguration unreadableWorld []).1.Apps = [] :=
  readAppConfiguration_invalid_source unreadableWorld [] (by decide)

/-- C10: in a process that has just started, for any non-empty sequence of
`GetAppSettings` calls (the world may differ from call to call), `readAppConfiguration`
runs once, in the first call: the only file read is the one of the first call's world, and
every call returns the settings that run computed. From any state whatever, a sequence of
calls adds at most one run. -/
theorem GetAppSettings_once (w : World) (ws : List World) :
    (getAppSettingsRun (w :: ws) State.init).2.reads = [w.Getenv "APP_CONFIG_PATH"]
    ∧ (getAppSettingsRun (w :: ws) State.init).1
        = List.replicate (ws.length + 1) (some (readAppConfiguration w []).1)
    ∧ (∀ (vs : List World) (st : State),
        (getAppSettingsRun vs st).2.reads.length ≤ st.reads.length + 1) := by
  refine ⟨?_, ?_, ?_⟩
  · simp only [getAppSettingsRun]
    rw [GetAppSettings_fresh w State.init rfl, getAppSettingsRun_done ws _ rfl]
    rfl
  · simp only [getAppSettingsRun]
    rw [GetAppSettings_fresh w State.init rfl, getAppSettingsRun_done ws _ rfl]
    rfl
  · intro vs st
    cases vs with
    | nil => simp [getAppSettingsRun]
    | cons v vs =>
      simp only [getAppSettingsRun]
      by_cases h : st.onceDone = true
      · rw [GetAppSettings_done v st h, getAppSettingsRun_done vs st h]
        simp
      · have h' : st.onceDone = false := by simpa using h
        rw [GetAppSettings_fresh v st h', getAppSettingsRun_done vs _ rfl]
        simp [readAppConfiguration_reads]

end Micro
